import Mathlib

/-!
Shallow embedding of the fee-submission front end (`src/App.jsx`) and the
spreadsheet-to-roster converter (`src/pages/convert.jsx`).

The submission queue and its dispatcher live in the React component `App`.
Its state is the pair of `useState` cells `requestQueue` and `isProcessing`,
plus — between the `await fetch` in `processRequest` and the resumption of
its continuation — the suspended continuation itself, which we record as
`inFlight` (the `requestId` the continuation will complete).  All queue
mutations happen in three synchronous bursts, each atomic on the single JS
thread (React 18 batches the `setState` calls inside one burst):

  * `addToQueue` (from `handleSubmit`): append a fresh item;
  * the queue-processing `useEffect` together with the synchronous prefix of
    `processRequest` (guard check, `setIsProcessing(true)`, map the chosen
    id to status "loading", start the fetch);
  * the continuation of the `await` (map the id to its terminal status,
    `finally setIsProcessing(false)`).

These three bursts are the three constructors of the step relation `Step`.
`Item.id` is `Date.now()` at enqueue time, embedded as an arbitrary `Nat`
supplied by the environment: two calls in the same millisecond receive the
same value.
-/

/-- The four values of the `status` field of a queue item
(`// pending, loading, success, error`). -/
inductive Status where
  | pending
  | loading
  | success
  | error
deriving DecidableEq

/-- The payload passed to `addToQueue` by `handleSubmit`:
`{ admissionNo, name: student.name, class: student.class, amount }`. -/
structure Payload where
  admissionNo : String
  name : String
  cls : String
  amount : String
deriving DecidableEq

/-- A queue entry, as built by `addToQueue`. `id` is the `Date.now()` reading
(milliseconds as a `Nat`), `timestamp` the `toLocaleTimeString()` string,
`message` the optional outcome detail set on completion. -/
structure Item where
  id : Nat
  admissionNo : String
  name : String
  cls : String
  amount : String
  status : Status
  timestamp : String
  message : Option String
deriving DecidableEq

/-- The `newRequest` object literal inside `addToQueue`:
`{ id: Date.now(), ...payload, status: "pending", timestamp: ... }`. -/
def newRequest (now : Nat) (p : Payload) (ts : String) : Item :=
  { id := now
    admissionNo := p.admissionNo
    name := p.name
    cls := p.cls
    amount := p.amount
    status := Status.pending
    timestamp := ts
    message := none }

/-- `addToQueue`: `setRequestQueue(prev => [...prev, newRequest])`. -/
def addToQueue (q : List Item) (now : Nat) (p : Payload) (ts : String) : List Item :=
  q ++ [newRequest now p ts]

/-- A parsed JSON response body (`data`), with its `status` string and
optional `message` field. -/
structure RespData where
  status : String
  message : Option String
deriving DecidableEq

/-- The per-item update applied when `processRequest`'s remote call finishes.
`some d`: the `then` path — `status: data.status === "success" ? "success" :
"error", message: data.message`.  `none`: the `catch` path (fetch threw or
`res.json()` failed) — `status: "error", message: "Failed to submit
payment."`. -/
def applyResp (r : Item) : Option RespData → Item
  | some d =>
      { r with
        status := if d.status = "success" then Status.success else Status.error
        message := d.message }
  | none =>
      { r with status := Status.error, message := some "Failed to submit payment." }

/-- The component state: the two `useState` cells plus the suspended
continuation of an in-flight `processRequest` (the `requestId` it will
finish), if any. -/
structure AppState where
  requestQueue : List Item
  isProcessing : Bool
  inFlight : Option Nat
deriving DecidableEq

/-- The initial component state: empty queue, not processing, nothing in
flight. -/
def initState : AppState :=
  { requestQueue := [], isProcessing := false, inFlight := none }

/-- Effect of one `addToQueue` call on the component state. -/
def enqueueStep (s : AppState) (now : Nat) (p : Payload) (ts : String) : AppState :=
  { s with requestQueue := addToQueue s.requestQueue now p ts }

/-- Effect of the queue-processing effect firing together with the
synchronous prefix of `processRequest requestId`: `setIsProcessing(true)`
and mapping every item whose `id` equals `requestId` to status "loading";
the fetch for `requestId` is now outstanding. -/
def startStep (s : AppState) (requestId : Nat) : AppState :=
  { requestQueue :=
      s.requestQueue.map fun req =>
        if req.id = requestId then { req with status := Status.loading } else req
    isProcessing := true
    inFlight := some requestId }

/-- Effect of the continuation of `processRequest requestId` resuming with
outcome `resp`: map every item whose `id` equals `requestId` through
`applyResp`, then (in `finally`) `setIsProcessing(false)`. -/
def completeStep (s : AppState) (requestId : Nat) (resp : Option RespData) : AppState :=
  { requestQueue :=
      s.requestQueue.map fun req =>
        if req.id = requestId then applyResp req resp else req
    isProcessing := false
    inFlight := none }

/-- The predicate the queue-processing effect uses to pick `nextRequest`. -/
def isPending (r : Item) : Bool :=
  decide (r.status = Status.pending)

/-- One atomic burst of the component:
* `enqueue` — a user submission appends an item (`Date.now()` is an
  arbitrary environment-chosen `now`);
* `start` — the effect sees `!isProcessing`, finds the first pending item
  `nextRequest` and runs `processRequest(nextRequest.id)` up to its `await`;
* `complete` — the outstanding fetch settles with `resp` and the
  continuation runs to the end of `finally`. -/
inductive Step : AppState → AppState → Prop where
  | enqueue (s : AppState) (now : Nat) (p : Payload) (ts : String) :
      Step s (enqueueStep s now p ts)
  | start (s : AppState) (item : Item)
      (hguard : s.isProcessing = false)
      (hfind : s.requestQueue.find? isPending = some item) :
      Step s (startStep s item.id)
  | complete (s : AppState) (requestId : Nat) (resp : Option RespData)
      (hflight : s.inFlight = some requestId) :
      Step s (completeStep s requestId resp)

/-- The states the component can reach from a fresh mount. -/
inductive Reach : AppState → Prop where
  | init : Reach initState
  | step {s s' : AppState} : Reach s → Step s s' → Reach s'

/-- The dispatcher-only steps (no user enqueue): `start` and `complete`. -/
inductive DStep : AppState → AppState → Prop where
  | start (s : AppState) (item : Item)
      (hguard : s.isProcessing = false)
      (hfind : s.requestQueue.find? isPending = some item) :
      DStep s (startStep s item.id)
  | complete (s : AppState) (requestId : Nat) (resp : Option RespData)
      (hflight : s.inFlight = some requestId) :
      DStep s (completeStep s requestId resp)

/-- The value `processRequest` serializes into the POST body:
`requestQueue.find(req => req.id === requestId)` evaluated on the queue
captured by the closure — the state the effect ran in, before the
"loading" update is applied. -/
def dispatchBody (s : AppState) (requestId : Nat) : Option Item :=
  s.requestQueue.find? fun req => decide (req.id = requestId)

/-- The ids of the queued items, in queue order. -/
def queueIds (s : AppState) : List Nat :=
  s.requestQueue.map Item.id

/-- How many queued items currently show status "loading". -/
def loadingCount (s : AppState) : Nat :=
  s.requestQueue.countP fun r => decide (r.status = Status.loading)

/-- A status from which the dispatcher never moves an item again. -/
def isTerminal (st : Status) : Bool :=
  decide (st = Status.success) || decide (st = Status.error)

/-- The one-step moves the spec's status chain allows an individual item:
stay put, `pending → loading`, or `loading → success / error`. -/
def stepOK (a b : Status) : Prop :=
  a = b ∨ (a = Status.pending ∧ b = Status.loading) ∨
    (a = Status.loading ∧ (b = Status.success ∨ b = Status.error))

instance (a b : Status) : Decidable (stepOK a b) := by
  unfold stepOK
  infer_instance

/-!
Roster lookup (`handleSearch` in `src/App.jsx`).  The roster is the
imported `students.json` array; an entry's `admissionNo` may be a JSON
number or a JSON string, and the search stringifies it before comparing:
`students.find((s) => String(s.admissionNo) === admissionNo.trim())`.
-/

/-- A JSON value usable as a roster `admissionNo`: a string or a number. -/
inductive AdmVal where
  | str (s : String)
  | num (n : Nat)
deriving DecidableEq

/-- JavaScript `String(x)` on an `AdmVal`. -/
def AdmVal.toStr : AdmVal → String
  | AdmVal.str s => s
  | AdmVal.num n => toString n

/-- One entry of `students.json`. -/
structure StudentRecord where
  admissionNo : AdmVal
  name : String
  cls : String
  team : Option String
deriving DecidableEq

/-- The lookup performed by `handleSearch`:
`students.find((s) => String(s.admissionNo) === admissionNo.trim())`.
`none` is the not-found branch (the `alert`, no throw). -/
def handleSearchFind (students : List StudentRecord) (admissionNo : String) :
    Option StudentRecord :=
  students.find? fun s => decide (s.admissionNo.toStr = admissionNo.trim)

/-!
The spreadsheet-to-roster converter (`handleFileUpload` in
`src/pages/convert.jsx`).  `XLSX.utils.sheet_to_json(worksheet, {header:1})`
yields an array of row arrays whose cells are JS values; reading past a
row's end (or a hole) yields `undefined`.  We embed a cell as `JsVal` and a
row as a `List JsVal`, with `jsGet` as subscripting.
-/

/-- A spreadsheet cell as seen by the converter: `undefined` (absent),
`null`, a string, or a number. -/
inductive JsVal where
  | undef
  | null
  | str (s : String)
  | num (n : Int)
deriving DecidableEq

/-- JavaScript `String(x)`. -/
def jsString : JsVal → String
  | JsVal.undef => "undefined"
  | JsVal.null => "null"
  | JsVal.str s => s
  | JsVal.num n => toString n

/-- JavaScript `row[i]`: out-of-range subscripts give `undefined`. -/
def jsGet (row : List JsVal) (i : Nat) : JsVal :=
  row.getD i JsVal.undef

/-- JavaScript loose equality `x == null`, true exactly for `null` and
`undefined`. -/
def jsLooseNull : JsVal → Bool
  | JsVal.null => true
  | JsVal.undef => true
  | _ => false

/-- The header-row test of the converter:
`row[0] === "Ad.No." && row[1] === "Name" && row[3] === "Class"`. -/
def isHeaderRow (row : List JsVal) : Bool :=
  decide (jsGet row 0 = JsVal.str "Ad.No.") &&
    decide (jsGet row 1 = JsVal.str "Name") &&
    decide (jsGet row 3 = JsVal.str "Class")

/-- The converter's data-row filter:
`row.length >= 4 && row[0] != null && row[0] !== empty`. -/
def keepRow (row : List JsVal) : Bool :=
  decide (4 ≤ row.length) && !jsLooseNull (jsGet row 0) &&
    !(decide (jsGet row 0 = JsVal.str ""))

/-- One record of the converter's output array. -/
structure RosterEntry where
  admissionNo : String
  name : String
  cls : String
deriving DecidableEq

/-- The converter's per-row mapping:
`{ admissionNo: String(row[0]).trim(), name: String(row[1]).trim(),
class: String(row[3]).toString().trim() }`. -/
def extractRow (row : List JsVal) : RosterEntry :=
  { admissionNo := (jsString (jsGet row 0)).trim
    name := (jsString (jsGet row 1)).trim
    cls := (jsString (jsGet row 3)).trim }

/-- The data pipeline of `handleFileUpload` after `sheet_to_json`:
`headerRowIndex = excelJson.findIndex(isHeader)` (`-1` when absent),
`dataRows = excelJson.slice(headerRowIndex + 1)`, then filter and map. -/
def convert (excelJson : List (List JsVal)) : List RosterEntry :=
  let headerRowIndex : Int :=
    match excelJson.findIdx? isHeaderRow with
    | some i => (i : Int)
    | none => -1
  let dataRows := excelJson.drop (headerRowIndex + 1).toNat
  (dataRows.filter keepRow).map extractRow

/-!  Basic facts about the transition functions. -/

theorem startUpd_id (rid : Nat) (r : Item) :
    (if r.id = rid then { r with status := Status.loading } else r).id = r.id := by
  split <;> rfl

theorem applyResp_id (r : Item) (resp : Option RespData) : (applyResp r resp).id = r.id := by
  cases resp <;> rfl

theorem completeUpd_id (rid : Nat) (resp : Option RespData) (r : Item) :
    (if r.id = rid then applyResp r resp else r).id = r.id := by
  split
  · exact applyResp_id r resp
  · rfl

theorem applyResp_terminal (r : Item) (resp : Option RespData) :
    isTerminal (applyResp r resp).status = true := by
  cases resp with
  | none => rfl
  | some d =>
      simp only [applyResp, isTerminal]
      split <;> simp

theorem applyResp_not_loading (r : Item) (resp : Option RespData) :
    (applyResp r resp).status ≠ Status.loading := by
  have h := applyResp_terminal r resp
  simp only [isTerminal, decide_eq_true_eq, Bool.or_eq_true] at h
  rcases h with h | h <;> simp [h]

theorem queueIds_enqueue (s : AppState) (now : Nat) (p : Payload) (ts : String) :
    queueIds (enqueueStep s now p ts) = queueIds s ++ [now] := by
  simp [queueIds, enqueueStep, addToQueue, newRequest]

theorem queueIds_start (s : AppState) (rid : Nat) :
    queueIds (startStep s rid) = queueIds s := by
  simp only [queueIds, startStep, List.map_map]
  exact List.map_congr_left fun r _ => startUpd_id rid r

theorem queueIds_complete (s : AppState) (rid : Nat) (resp : Option RespData) :
    queueIds (completeStep s rid resp) = queueIds s := by
  simp only [queueIds, completeStep, List.map_map]
  exact List.map_congr_left fun r _ => completeUpd_id rid resp r

theorem step_nodup_back {s s' : AppState} (h : Step s s')
    (hnd : (queueIds s').Nodup) : (queueIds s).Nodup := by
  cases h with
  | enqueue now p ts =>
      rw [queueIds_enqueue] at hnd
      exact (List.nodup_append.mp hnd).1
  | start item hguard hfind =>
      rwa [queueIds_start] at hnd
  | complete rid resp hflight =>
      rwa [queueIds_complete] at hnd

/-!  The inductive invariant of the component.  In any reachable state whose
items carry pairwise-distinct ids: the `isProcessing` flag is set exactly
while a fetch is outstanding, an item shows "loading" exactly when its id is
the outstanding one, and the outstanding id belongs to a queued item. -/

/-- The dispatcher invariant tying `isProcessing`, `inFlight` and the
"loading" markers together. -/
def DispatchInv (s : AppState) : Prop :=
  s.isProcessing = s.inFlight.isSome ∧
    (∀ r ∈ s.requestQueue, (r.status = Status.loading ↔ s.inFlight = some r.id)) ∧
    (∀ i, s.inFlight = some i → i ∈ queueIds s)

theorem inv_init : DispatchInv initState := by
  refine ⟨rfl, ?_, ?_⟩
  · intro r hr; cases hr
  · intro i hi; cases hi

theorem inv_preserved {s s' : AppState} (hstep : Step s s')
    (hnd : (queueIds s').Nodup) (hi : DispatchInv s) : DispatchInv s' := by
  obtain ⟨h1, h2, h3⟩ := hi
  cases hstep with
  | enqueue now p ts =>
      refine ⟨h1, ?_, ?_⟩
      · intro r hr
        rcases List.mem_append.mp hr with hr | hr
        · exact h2 r hr
        · rcases List.mem_singleton.mp hr with rfl
          constructor
          · intro hst; cases hst
          · intro hfl
            exfalso
            have hmem : now ∈ queueIds s := h3 now hfl
            rw [queueIds_enqueue] at hnd
            exact (List.nodup_append.mp hnd).2.2 hmem (List.mem_singleton.mpr rfl)
      · intro i hi'
        rw [queueIds_enqueue]
        exact List.mem_append_left _ (h3 i hi')
  | start item hguard hfind =>
      have hnone : s.inFlight = none := by
        cases hfl : s.inFlight with
        | none => rfl
        | some i => rw [h1, hfl] at hguard; cases hguard
      have hnoload : ∀ r ∈ s.requestQueue, r.status ≠ Status.loading := by
        intro r hr hl
        have := (h2 r hr).mp hl
        rw [hnone] at this
        cases this
      refine ⟨rfl, ?_, ?_⟩
      · intro r' hr'
        rcases List.mem_map.mp hr' with ⟨r, hr, rfl⟩
        by_cases hid : r.id = item.id
        · simp only [hid, if_true, startStep, Option.some.injEq]
        · simp only [hid, if_false, startStep, Option.some.injEq]
          constructor
          · intro hl; exact absurd hl (hnoload r hr)
          · intro h; exact absurd h.symm hid
      · intro i hi'
        simp only [startStep, Option.some.injEq] at hi'
        rw [queueIds_start]
        subst hi'
        exact List.mem_map_of_mem Item.id (List.mem_of_find?_eq_some hfind)
  | complete rid resp hflight =>
      refine ⟨rfl, ?_, ?_⟩
      · intro r' hr'
        rcases List.mem_map.mp hr' with ⟨r, hr, rfl⟩
        by_cases hid : r.id = rid
        · simp only [hid, if_true]
          constructor
          · intro hl; exact absurd hl (applyResp_not_loading r resp)
          · intro h; cases h
        · simp only [hid, if_false]
          constructor
          · intro hl
            have := (h2 r hr).mp hl
            rw [hflight] at this
            exact absurd (Option.some.inj this).symm hid
          · intro h; cases h
      · intro i hi'
        cases hi'

theorem invariant_holds {s : AppState} (hR : Reach s)
    (hnd : (queueIds s).Nodup) : DispatchInv s := by
  induction hR with
  | init => exact inv_init
  | step hr hstep ih =>
      exact inv_preserved hstep hnd (ih (step_nodup_back hstep hnd))

/-!  Counting helpers. -/

theorem countP_key_le_one {α β : Type} [DecidableEq β] (f : α → β) (l : List α)
    (hnd : (l.map f).Nodup) (b : β) : l.countP (fun a => decide (f a = b)) ≤ 1 := by
  induction l with
  | nil => simp
  | cons x t ih =>
      rw [List.map_cons, List.nodup_cons] at hnd
      rw [List.countP_cons]
      by_cases hx : f x = b
      · have ht : t.countP (fun a => decide (f a = b)) = 0 := by
          rw [List.countP_eq_zero]
          intro a ha
          simp only [decide_eq_true_eq]
          intro hab
          exact hnd.1 (by rw [hx, ← hab]; exact List.mem_map_of_mem f ha)
        simp [hx, ht]
      · have ht := ih hnd.2
        simp only [hx, decide_eq_true_eq, if_false]
        simpa using ht

theorem countP_lt_of_witness {α : Type} (p q : α → Bool) (l : List α) (a : α)
    (ha : a ∈ l) (hpa : p a = false) (hqa : q a = true)
    (hmono : ∀ x ∈ l, p x = true → q x = true) :
    l.countP p < l.countP q := by
  induction l with
  | nil => cases ha
  | cons x t ih =>
      rw [List.countP_cons, List.countP_cons]
      rcases List.mem_cons.mp ha with rfl | hat
      · have ht : t.countP p ≤ t.countP q :=
          List.countP_mono_left fun x hx => hmono x (List.mem_cons_of_mem _ hx)
        simp [hpa, hqa]
        omega
      · have ht := ih hat (fun x hx => hmono x (List.mem_cons_of_mem _ hx))
        by_cases hpx : p x = true
        · have hqx := hmono x (List.mem_cons_self x t) hpx
          simp [hpx, hqx]
          omega
        · rw [Bool.not_eq_true] at hpx
          simp [hpx]
          omega

/-!  Concrete states used by the scenario witnesses and counterexamples.
`plA` is the Scenario B payload; the `Nat` passed as `now` plays the part of
the `Date.now()` reading (two calls in the same millisecond read the same
value). -/

/-- The Scenario B payload: admission number 101, Asha of class 5B, 500. -/
def plA : Payload :=
  { admissionNo := "101", name := "Asha", cls := "5B", amount := "500" }

/-- One item enqueued at millisecond 5. -/
def st1 : AppState := enqueueStep initState 5 plA "t1"

/-- State after the dispatch of the single item has started. -/
def st2 : AppState := startStep st1 5

/-- State after the remote call answered with status "success" and message "OK". -/
def st3 : AppState := completeStep st2 5 (some { status := "success", message := some "OK" })

/-- Two items enqueued during the same millisecond 5 (same `Date.now()`
reading, hence the same id). -/
def stDup : AppState := enqueueStep (enqueueStep initState 5 plA "t1") 5 plA "t2"

/-- State after the dispatcher has started processing the first duplicate-id item. -/
def stDupGo : AppState := startStep stDup 5

theorem reach_st1 : Reach st1 :=
  Reach.step Reach.init (Step.enqueue initState 5 plA "t1")

theorem reach_st2 : Reach st2 :=
  Reach.step reach_st1 (Step.start st1 (newRequest 5 plA "t1") rfl (by decide))

theorem reach_st3 : Reach st3 :=
  Reach.step reach_st2
    (Step.complete st2 5 (some { status := "success", message := some "OK" }) rfl)

theorem reach_stDup : Reach stDup :=
  Reach.step (Reach.step Reach.init (Step.enqueue initState 5 plA "t1"))
    (Step.enqueue (enqueueStep initState 5 plA "t1") 5 plA "t2")

theorem reach_stDupGo : Reach stDupGo :=
  Reach.step reach_stDup (Step.start stDup (newRequest 5 plA "t1") rfl (by decide))

/-!  Claim C1: at most one item in "loading" at any instant. -/

/-- C1 (amended): in every reachable state whose items carry pairwise
distinct ids — i.e. in every run where no two enqueues read the same
`Date.now()` millisecond — at most one queued item has status "loading". -/
theorem loading_at_most_one (s : AppState) (hR : Reach s)
    (hnd : (queueIds s).Nodup) : loadingCount s ≤ 1 := by
  obtain ⟨h1, h2, h3⟩ := invariant_holds hR hnd
  unfold loadingCount
  cases hf : s.inFlight with
  | none =>
      have hz : s.requestQueue.countP (fun r => decide (r.status = Status.loading)) = 0 := by
        rw [List.countP_eq_zero]
        intro r hr
        simp only [decide_eq_true_eq]
        intro hl
        have := (h2 r hr).mp hl
        rw [hf] at this
        cases this
      omega
  | some i0 =>
      have hmono : ∀ r ∈ s.requestQueue,
          decide (r.status = Status.loading) = true → decide (r.id = i0) = true := by
        intro r hr h
        simp only [decide_eq_true_eq] at h ⊢
        have := (h2 r hr).mp h
        rw [hf] at this
        exact (Option.some.inj this).symm
      calc s.requestQueue.countP (fun r => decide (r.status = Status.loading))
          ≤ s.requestQueue.countP (fun r => decide (r.id = i0)) :=
            List.countP_mono_left hmono
        _ ≤ 1 := countP_key_le_one Item.id s.requestQueue hnd i0

/-- C1 counterexample: two submissions enqueued during the same millisecond
share the `Date.now()` id, and the single id-keyed "loading" update of
`processRequest` then marks both of them "loading" at once — a reachable
state with two simultaneously loading items. -/
theorem loading_two_at_once : Reach stDupGo ∧ loadingCount stDupGo = 2 :=
  ⟨reach_stDupGo, by decide⟩

/-- C1 witness: the amended theorem applied to the concrete one-item run
`st2`, whose single dispatched item is the only loading one. -/
theorem loading_at_most_one_witness :
    Reach st2 ∧ (queueIds st2).Nodup ∧ loadingCount st2 ≤ 1 :=
  ⟨reach_st2, by decide, loading_at_most_one st2 reach_st2 (by decide)⟩

/-!  Claim C3: per-item statuses only move forward along
pending → loading → success / error. -/

theorem ids_inj {q : List Item} (hnd : (q.map Item.id).Nodup) {r1 r2 : Item}
    (h1 : r1 ∈ q) (h2 : r2 ∈ q) (hid : r1.id = r2.id) : r1 = r2 :=
  List.inj_on_of_nodup_map hnd h1 h2 hid

/-- C3 (amended): in every run where no two enqueues read the same
`Date.now()` millisecond (pairwise-distinct ids), each step of the
component moves every individual item's status along the chain
pending → loading → success / error, or leaves it unchanged. -/
theorem status_monotonic (s s' : AppState) (hR : Reach s)
    (hnd : (queueIds s).Nodup) (hstep : Step s s') (k : Nat)
    (hk : k < s.requestQueue.length) (hk' : k < s'.requestQueue.length) :
    stepOK (s.requestQueue.get ⟨k, hk⟩).status (s'.requestQueue.get ⟨k, hk'⟩).status := by
  obtain ⟨h1, h2, h3⟩ := invariant_holds hR hnd
  cases hstep with
  | enqueue now p ts =>
      have he : (enqueueStep s now p ts).requestQueue.get ⟨k, hk'⟩
          = s.requestQueue.get ⟨k, hk⟩ := by
        simp only [List.get_eq_getElem, enqueueStep, addToQueue]
        exact List.getElem_append_left hk
      rw [he]
      exact Or.inl rfl
  | start item hguard hfind =>
      have hmap : (startStep s item.id).requestQueue.get ⟨k, hk'⟩
          = (fun req => if req.id = item.id then { req with status := Status.loading }
              else req) (s.requestQueue.get ⟨k, hk⟩) := by
        simp only [List.get_eq_getElem, startStep, List.getElem_map]
      rw [hmap]
      by_cases hid : (s.requestQueue.get ⟨k, hk⟩).id = item.id
      · have hmem : s.requestQueue.get ⟨k, hk⟩ ∈ s.requestQueue := s.requestQueue.get_mem k hk
        have hitem : item ∈ s.requestQueue := List.mem_of_find?_eq_some hfind
        have heq : s.requestQueue.get ⟨k, hk⟩ = item := ids_inj hnd hmem hitem hid
        have hpend : item.status = Status.pending := by
          have := List.find?_some hfind
          simpa [isPending] using this
        simp only [if_pos hid]
        right
        left
        exact ⟨by rw [heq, hpend], rfl⟩
      · simp only [if_neg hid]
        exact Or.inl rfl
  | complete rid resp hflight =>
      have hmap : (completeStep s rid resp).requestQueue.get ⟨k, hk'⟩
          = (fun req => if req.id = rid then applyResp req resp else req)
              (s.requestQueue.get ⟨k, hk⟩) := by
        simp only [List.get_eq_getElem, completeStep, List.getElem_map]
      rw [hmap]
      by_cases hid : (s.requestQueue.get ⟨k, hk⟩).id = rid
      · have hmem : s.requestQueue.get ⟨k, hk⟩ ∈ s.requestQueue := s.requestQueue.get_mem k hk
        have hload : (s.requestQueue.get ⟨k, hk⟩).status = Status.loading :=
          (h2 _ hmem).mpr (by rw [hflight, hid])
        simp only [if_pos hid]
        right
        right
        refine ⟨hload, ?_⟩
        have := applyResp_terminal (s.requestQueue.get ⟨k, hk⟩) resp
        simpa [isTerminal] using this
      · simp only [if_neg hid]
        exact Or.inl rfl

/-- The state of `st2` after a second submission is enqueued during the same
millisecond 5 while the first item's fetch is still outstanding. -/
def stDupFly : AppState := enqueueStep st2 5 plA "t2"

/-- State after the outstanding fetch then resolves successfully: the id-keyed
terminal update hits both items sharing id 5. -/
def stDupDone : AppState :=
  completeStep stDupFly 5 (some { status := "success", message := some "OK" })

theorem reach_stDupFly : Reach stDupFly :=
  Reach.step reach_st2 (Step.enqueue st2 5 plA "t2")

/-- C3 counterexample: an item enqueued (same-millisecond id collision)
while its id is already in flight jumps straight from "pending" to
"success" when the outstanding call completes — the status chain is not
respected item by item. -/
theorem status_skips_loading :
    Reach stDupFly ∧ Step stDupFly stDupDone ∧
    (stDupFly.requestQueue.get ⟨1, by decide⟩).status = Status.pending ∧
    (stDupDone.requestQueue.get ⟨1, by decide⟩).status = Status.success ∧
    ¬ stepOK Status.pending Status.success :=
  ⟨reach_stDupFly,
   Step.complete stDupFly 5 (some { status := "success", message := some "OK" }) rfl,
   by decide, by decide, by decide⟩

/-- C3 witness: the amended theorem applied to the dispatch step of the
one-item run, whose item moves pending → loading. -/
theorem status_monotonic_witness :
    Reach st1 ∧ (queueIds st1).Nodup ∧
    stepOK (st1.requestQueue.get ⟨0, by decide⟩).status
      (st2.requestQueue.get ⟨0, by decide⟩).status :=
  ⟨reach_st1, by decide,
   status_monotonic st1 st2 reach_st1 (by decide)
     (Step.start st1 (newRequest 5 plA "t1") rfl (by decide)) 0 (by decide) (by decide)⟩

/-!  Claim C2: FIFO dispatch order and exhaustive draining. -/

theorem fifo_step (s s' : AppState) (hR : Reach s) (hnd : (queueIds s).Nodup)
    (hstep : Step s s') (i j : Nat) (hij : i < j) (hj : j < s.requestQueue.length)
    (hj' : j < s'.requestQueue.length)
    (hpend : (s.requestQueue.get ⟨j, hj⟩).status = Status.pending)
    (hout : (s'.requestQueue.get ⟨j, hj'⟩).status ≠ Status.pending) :
    isTerminal (s.requestQueue.get ⟨i, Nat.lt_trans hij hj⟩).status = true := by
  obtain ⟨h1, h2, h3⟩ := invariant_holds hR hnd
  cases hstep with
  | enqueue now p ts =>
      exfalso
      apply hout
      have he : (enqueueStep s now p ts).requestQueue.get ⟨j, hj'⟩
          = s.requestQueue.get ⟨j, hj⟩ := by
        simp only [List.get_eq_getElem, enqueueStep, addToQueue]
        exact List.getElem_append_left hj
      rw [he]
      exact hpend
  | start item hguard hfind =>
      have hmap : (startStep s item.id).requestQueue.get ⟨j, hj'⟩
          = (fun req => if req.id = item.id then { req with status := Status.loading }
              else req) (s.requestQueue.get ⟨j, hj⟩) := by
        simp only [List.get_eq_getElem, startStep, List.getElem_map]
      by_cases hid : (s.requestQueue.get ⟨j, hj⟩).id = item.id
      case neg =>
        exfalso
        apply hout
        rw [hmap]
        simp only [if_neg hid]
        exact hpend
      have hmemj : s.requestQueue.get ⟨j, hj⟩ ∈ s.requestQueue := s.requestQueue.get_mem j hj
      have hitem : item ∈ s.requestQueue := List.mem_of_find?_eq_some hfind
      have heqj : s.requestQueue.get ⟨j, hj⟩ = item := ids_inj hnd hmemj hitem hid
      rw [List.find?_eq_some] at hfind
      obtain ⟨hpitem, as, bs, hsplit, hforall⟩ := hfind
      have hnodup_items : s.requestQueue.Nodup := List.Nodup.of_map Item.id hnd
      have hmlen : as.length < s.requestQueue.length := by
        rw [hsplit, List.length_append, List.length_cons]
        omega
      have hat : s.requestQueue.get ⟨as.length, hmlen⟩ = item := by
        simp only [List.get_eq_getElem]
        rw [List.getElem_of_eq hsplit hmlen,
          List.getElem_append_right (Nat.le_refl as.length)]
        simp
      have hjm : j = as.length := by
        have hinj := @List.Nodup.get_inj_iff Item s.requestQueue hnodup_items
          ⟨j, hj⟩ ⟨as.length, hmlen⟩
        have := hinj.mp (heqj.trans hat.symm)
        exact Fin.mk.inj_iff.mp this
      have hilen : i < as.length := by omega
      have hasi : s.requestQueue.get ⟨i, Nat.lt_trans hij hj⟩ = as.get ⟨i, hilen⟩ := by
        simp only [List.get_eq_getElem]
        rw [List.getElem_of_eq hsplit (Nat.lt_trans hij hj),
          List.getElem_append_left hilen]
      have hnp : ¬ (s.requestQueue.get ⟨i, Nat.lt_trans hij hj⟩).status = Status.pending := by
        have := hforall (as.get ⟨i, hilen⟩) (as.get_mem i hilen)
        rw [hasi]
        simpa [isPending] using this
      have hnone : s.inFlight = none := by
        cases hfl : s.inFlight with
        | none => rfl
        | some x => rw [h1, hfl] at hguard; cases hguard
      have hnl : (s.requestQueue.get ⟨i, Nat.lt_trans hij hj⟩).status ≠ Status.loading := by
        intro hl
        have := (h2 _ (s.requestQueue.get_mem i (Nat.lt_trans hij hj))).mp hl
        rw [hnone] at this
        cases this
      cases hstatus : (s.requestQueue.get ⟨i, Nat.lt_trans hij hj⟩).status with
      | pending => exact absurd hstatus hnp
      | loading => exact absurd hstatus hnl
      | success => rfl
      | error => rfl
  | complete rid resp hflight =>
      exfalso
      by_cases hid : (s.requestQueue.get ⟨j, hj⟩).id = rid
      · have hload : (s.requestQueue.get ⟨j, hj⟩).status = Status.loading :=
          (h2 _ (s.requestQueue.get_mem j hj)).mpr (by rw [hflight, hid])
        rw [hpend] at hload
        cases hload
      · apply hout
        have hmap : (completeStep s rid resp).requestQueue.get ⟨j, hj'⟩
            = (fun req => if req.id = rid then applyResp req resp else req)
                (s.requestQueue.get ⟨j, hj⟩) := by
          simp only [List.get_eq_getElem, completeStep, List.getElem_map]
        rw [hmap]
        simp only [if_neg hid]
        exact hpend

theorem drain (n : Nat) : ∀ (s : AppState), Reach s → (queueIds s).Nodup →
    s.requestQueue.countP (fun r => !isTerminal r.status) ≤ n →
    ∃ s', Relation.ReflTransGen DStep s s' ∧
      ∀ r ∈ s'.requestQueue, isTerminal r.status = true := by
  induction n with
  | zero =>
      intro s hR hnd hcount
      refine ⟨s, Relation.ReflTransGen.refl, ?_⟩
      intro r hr
      have hz : s.requestQueue.countP (fun r => !isTerminal r.status) = 0 :=
        Nat.le_zero.mp hcount
      rw [List.countP_eq_zero] at hz
      have := hz r hr
      simpa using this
  | succ n ih =>
      intro s hR hnd hcount
      obtain ⟨h1, h2, h3⟩ := invariant_holds hR hnd
      cases hf : s.inFlight with
      | some rid =>
          have hstep : Step s (completeStep s rid none) := Step.complete s rid none hf
          have hR' : Reach (completeStep s rid none) := Reach.step hR hstep
          have hnd' : (queueIds (completeStep s rid none)).Nodup := by
            rw [queueIds_complete]
            exact hnd
          have hridmem : rid ∈ queueIds s := h3 rid hf
          obtain ⟨r0, hr0, hr0id⟩ := List.mem_map.mp hridmem
          have hload : r0.status = Status.loading :=
            (h2 r0 hr0).mpr (by rw [hf, hr0id])
          have hdec : (completeStep s rid none).requestQueue.countP
                (fun r => !isTerminal r.status)
              < s.requestQueue.countP (fun r => !isTerminal r.status) := by
            have hrw : (completeStep s rid none).requestQueue.countP
                  (fun r => !isTerminal r.status)
                = s.requestQueue.countP (fun r =>
                    !isTerminal (if r.id = rid then applyResp r none else r).status) := by
              simp only [completeStep, List.countP_map]
              rfl
            rw [hrw]
            refine countP_lt_of_witness _ _ s.requestQueue r0 hr0 ?_ ?_ ?_
            · simp [hr0id, applyResp_terminal]
            · simp [hload, isTerminal]
            · intro x hx
              by_cases hxid : x.id = rid
              · simp [hxid, applyResp_terminal]
              · simp [hxid]
          obtain ⟨s', hchain, hterm⟩ := ih (completeStep s rid none) hR' hnd' (by omega)
          exact ⟨s', Relation.ReflTransGen.head (DStep.complete s rid none hf) hchain, hterm⟩
      | none =>
          have hproc : s.isProcessing = false := by rw [h1, hf]; rfl
          cases hfind : s.requestQueue.find? isPending with
          | none =>
              refine ⟨s, Relation.ReflTransGen.refl, ?_⟩
              intro r hr
              rw [List.find?_eq_none] at hfind
              have hnp := hfind r hr
              have hnl : r.status ≠ Status.loading := by
                intro hl
                have := (h2 r hr).mp hl
                rw [hf] at this
                cases this
              simp only [isPending, decide_eq_true_eq] at hnp
              cases hst : r.status with
              | pending => exact absurd hst hnp
              | loading => exact absurd hst hnl
              | success => rfl
              | error => rfl
          | some item =>
              have hstep1 : Step s (startStep s item.id) := Step.start s item hproc hfind
              have hR1 : Reach (startStep s item.id) := Reach.step hR hstep1
              have hnd1 : (queueIds (startStep s item.id)).Nodup := by
                rw [queueIds_start]
                exact hnd
              have hstep2 : Step (startStep s item.id)
                  (completeStep (startStep s item.id) item.id none) :=
                Step.complete (startStep s item.id) item.id none rfl
              have hR2 : Reach (completeStep (startStep s item.id) item.id none) :=
                Reach.step hR1 hstep2
              have hnd2 : (queueIds (completeStep (startStep s item.id) item.id none)).Nodup := by
                rw [queueIds_complete, queueIds_start]
                exact hnd
              have hitem : item ∈ s.requestQueue := List.mem_of_find?_eq_some hfind
              have hpitem : item.status = Status.pending := by
                have := List.find?_some hfind
                simpa [isPending] using this
              have hdec : (completeStep (startStep s item.id) item.id none).requestQueue.countP
                    (fun r => !isTerminal r.status)
                  < s.requestQueue.countP (fun r => !isTerminal r.status) := by
                have hrw : (completeStep (startStep s item.id) item.id none).requestQueue.countP
                      (fun r => !isTerminal r.status)
                    = s.requestQueue.countP (fun r =>
                        !isTerminal (if (if r.id = item.id then
                              { r with status := Status.loading } else r).id = item.id then
                            applyResp (if r.id = item.id then
                              { r with status := Status.loading } else r) none
                          else (if r.id = item.id then
                              { r with status := Status.loading } else r)).status) := by
                  simp only [completeStep, startStep, List.countP_map]
                  rfl
                rw [hrw]
                refine countP_lt_of_witness _ _ s.requestQueue item hitem ?_ ?_ ?_
                · simp [applyResp_terminal]
                · simp [hpitem, isTerminal]
                · intro x hx
                  by_cases hxid : x.id = item.id
                  · simp [hxid, applyResp_terminal]
                  · simp [hxid]
              obtain ⟨s', hchain, hterm⟩ :=
                ih (completeStep (startStep s item.id) item.id none) hR2 hnd2 (by omega)
              exact ⟨s',
                Relation.ReflTransGen.head (DStep.start s item hproc hfind)
                  (Relation.ReflTransGen.head
                    (DStep.complete (startStep s item.id) item.id none rfl) hchain),
                hterm⟩

/-- C2 (amended): in every run where no two enqueues read the same
`Date.now()` millisecond (pairwise-distinct ids), dispatch is FIFO and
exhaustive: no later-enqueued item leaves "pending" on a step unless every
earlier item is already terminal, and from any such reachable state the
dispatcher alone (every remote call settling) drives every queued item to a
terminal state. -/
theorem fifo_and_exhaustive (s : AppState) (hR : Reach s)
    (hnd : (queueIds s).Nodup) :
    (∀ s', Step s s' → ∀ i j, ∀ (hij : i < j) (hj : j < s.requestQueue.length)
        (hj' : j < s'.requestQueue.length),
        (s.requestQueue.get ⟨j, hj⟩).status = Status.pending →
        (s'.requestQueue.get ⟨j, hj'⟩).status ≠ Status.pending →
        isTerminal (s.requestQueue.get ⟨i, Nat.lt_trans hij hj⟩).status = true) ∧
    (∃ s', Relation.ReflTransGen DStep s s' ∧
        ∀ r ∈ s'.requestQueue, isTerminal r.status = true) :=
  ⟨fun s' hstep i j hij hj hj' hpend hout =>
      fifo_step s s' hR hnd hstep i j hij hj hj' hpend hout,
   drain (s.requestQueue.countP fun r => !isTerminal r.status) s hR hnd (Nat.le_refl _)⟩

/-- C2 counterexample: with two items enqueued A-then-B during the same
millisecond (shared `Date.now()` id), the single dispatch of A also moves B
out of "pending" (both turn "loading") while A is still far from terminal —
B's status leaves "pending" before A ever reaches "success"/"error". -/
theorem fifo_violated :
    Reach stDup ∧ Step stDup stDupGo ∧
    (stDup.requestQueue.get ⟨1, by decide⟩).status = Status.pending ∧
    (stDupGo.requestQueue.get ⟨1, by decide⟩).status ≠ Status.pending ∧
    isTerminal (stDup.requestQueue.get ⟨0, by decide⟩).status = false :=
  ⟨reach_stDup, Step.start stDup (newRequest 5 plA "t1") rfl (by decide),
   by decide, by decide, by decide⟩

/-- C2 witness: the amended theorem applied to the concrete one-item run
`st1`; its second component yields the dispatcher run that drains the
queue. -/
theorem fifo_and_exhaustive_witness :
    Reach st1 ∧ (queueIds st1).Nodup ∧
    (∃ s', Relation.ReflTransGen DStep st1 s' ∧
        ∀ r ∈ s'.requestQueue, isTerminal r.status = true) :=
  ⟨reach_st1, by decide, (fifo_and_exhaustive st1 reach_st1 (by decide)).2⟩

/-!  Claim C4: the completed item's terminal state is exactly the parsed
response's verdict, with the fixed fallback on transport/parse failure. -/

/-- C4: when the outstanding remote call for the dispatched (loading) item
settles, that item's state is determined exactly by the response: a parsed
body with `status = "success"` yields status "success" with the body's
message, any other parsed body yields status "error" with the body's
message, and a throw/parse failure yields status "error" with the fixed
message "Failed to submit payment.". -/
theorem response_determines_outcome (s : AppState) (hR : Reach s)
    (hnd : (queueIds s).Nodup) (rid : Nat) (hflight : s.inFlight = some rid)
    (resp : Option RespData) (k : Nat) (hk : k < s.requestQueue.length)
    (hk' : k < (completeStep s rid resp).requestQueue.length)
    (hid : (s.requestQueue.get ⟨k, hk⟩).id = rid) :
    Step s (completeStep s rid resp) ∧
    (s.requestQueue.get ⟨k, hk⟩).status = Status.loading ∧
    (resp = none →
      ((completeStep s rid resp).requestQueue.get ⟨k, hk'⟩).status = Status.error ∧
      ((completeStep s rid resp).requestQueue.get ⟨k, hk'⟩).message
        = some "Failed to submit payment.") ∧
    (∀ d, resp = some d → d.status = "success" →
      ((completeStep s rid resp).requestQueue.get ⟨k, hk'⟩).status = Status.success ∧
      ((completeStep s rid resp).requestQueue.get ⟨k, hk'⟩).message = d.message) ∧
    (∀ d, resp = some d → d.status ≠ "success" →
      ((completeStep s rid resp).requestQueue.get ⟨k, hk'⟩).status = Status.error ∧
      ((completeStep s rid resp).requestQueue.get ⟨k, hk'⟩).message = d.message) := by
  obtain ⟨h1, h2, h3⟩ := invariant_holds hR hnd
  have hload : (s.requestQueue.get ⟨k, hk⟩).status = Status.loading :=
    (h2 _ (s.requestQueue.get_mem k hk)).mpr (by rw [hflight, hid])
  have hmap : (completeStep s rid resp).requestQueue.get ⟨k, hk'⟩
      = (fun req => if req.id = rid then applyResp req resp else req)
          (s.requestQueue.get ⟨k, hk⟩) := by
    simp only [List.get_eq_getElem, completeStep, List.getElem_map]
  refine ⟨Step.complete s rid resp hflight, hload, ?_, ?_, ?_⟩
  · intro hnone
    subst hnone
    rw [hmap]
    simp only [if_pos hid]
    exact ⟨rfl, rfl⟩
  · intro d hsome hsucc
    subst hsome
    rw [hmap]
    simp only [if_pos hid]
    simp [applyResp, hsucc]
  · intro d hsome hfail
    subst hsome
    rw [hmap]
    simp only [if_pos hid]
    simp [applyResp, hfail]

/-- C4 witness: Scenario C — the one-item run whose call answers
`{status: "success", message: "OK"}` ends with the item in "success"
carrying message "OK". -/
theorem response_determines_outcome_witness :
    Reach st2 ∧ (queueIds st2).Nodup ∧ st2.inFlight = some 5 ∧
    (st2.requestQueue.get ⟨0, by decide⟩).status = Status.loading ∧
    (st3.requestQueue.get ⟨0, by decide⟩).status = Status.success ∧
    (st3.requestQueue.get ⟨0, by decide⟩).message = some "OK" :=
  ⟨reach_st2, by decide, rfl,
   (response_determines_outcome st2 reach_st2 (by decide) 5 rfl
     (some { status := "success", message := some "OK" }) 0 (by decide) (by decide)
     (by decide)).2.1,
   ((response_determines_outcome st2 reach_st2 (by decide) 5 rfl
     (some { status := "success", message := some "OK" }) 0 (by decide) (by decide)
     (by decide)).2.2.2.1 { status := "success", message := some "OK" } rfl rfl).1,
   ((response_determines_outcome st2 reach_st2 (by decide) 5 rfl
     (some { status := "success", message := some "OK" }) 0 (by decide) (by decide)
     (by decide)).2.2.2.1 { status := "success", message := some "OK" } rfl rfl).2⟩

/-!  Claims C5 and C6: what one enqueue does, and id (non-)uniqueness over a
sequence of enqueues.  A sequence of `addToQueue` calls is a list of
`(Date.now() reading, payload, timestamp string)` triples folded over the
empty queue. -/

/-- The queue produced by a sequence of `addToQueue` calls during one
process lifetime, each with its own `Date.now()` reading. -/
def enqueueAll (l : List (Nat × Payload × String)) : List Item :=
  l.foldl (fun q x => addToQueue q x.1 x.2.1 x.2.2) []

theorem foldl_addToQueue (l : List (Nat × Payload × String)) :
    ∀ q : List Item, l.foldl (fun q x => addToQueue q x.1 x.2.1 x.2.2) q
      = q ++ l.map (fun x => newRequest x.1 x.2.1 x.2.2) := by
  induction l with
  | nil => intro q; simp
  | cons x t ih =>
      intro q
      rw [List.foldl_cons, List.map_cons, ih, addToQueue, List.append_assoc,
        List.singleton_append]

theorem enqueueAll_eq_map (l : List (Nat × Payload × String)) :
    enqueueAll l = l.map fun x => newRequest x.1 x.2.1 x.2.2 := by
  simpa [enqueueAll] using foldl_addToQueue l []

/-- C5 (amended): the ids assigned over any sequence of enqueues are
pairwise distinct provided the `Date.now()` readings of those enqueues are
pairwise distinct — i.e. provided no two enqueues happen during the same
millisecond. -/
theorem ids_unique_of_distinct_clock (l : List (Nat × Payload × String))
    (h : (l.map fun x => x.1).Nodup) :
    ((enqueueAll l).map Item.id).Nodup := by
  rw [enqueueAll_eq_map, List.map_map]
  exact h

/-- C5 counterexample: two enqueues during the same millisecond read the
same `Date.now()` value and the two created items share one id — the ids
are not pairwise distinct. -/
theorem ids_collide :
    ¬ ((enqueueAll [(5, plA, "t1"), (5, plA, "t2")]).map Item.id).Nodup := by
  decide

/-- C5 witness: the amended theorem applied to two enqueues at distinct
milliseconds 5 and 6. -/
theorem ids_unique_witness :
    (([(5, plA, "t1"), (6, plA, "t2")] :
        List (Nat × Payload × String)).map fun x => x.1).Nodup ∧
    ((enqueueAll [(5, plA, "t1"), (6, plA, "t2")]).map Item.id).Nodup :=
  ⟨by decide, ids_unique_of_distinct_clock [(5, plA, "t1"), (6, plA, "t2")] (by decide)⟩

/-- C6 (amended): `addToQueue` always succeeds and appends one new item —
status "pending", id the `Date.now()` reading, the enqueue-time timestamp,
and the payload's fields — at the end of the queue, leaving every earlier
item in place; over any sequence of enqueues the queue lists the items in
exactly enqueue order; and the appended id is fresh provided the reading is
not already an id in the queue. -/
theorem enqueue_appends (q : List Item) (now : Nat) (p : Payload) (ts : String) :
    (addToQueue q now p ts).take q.length = q ∧
    (addToQueue q now p ts).drop q.length = [newRequest now p ts] ∧
    (newRequest now p ts).status = Status.pending ∧
    (newRequest now p ts).id = now ∧
    (newRequest now p ts).timestamp = ts ∧
    (newRequest now p ts).admissionNo = p.admissionNo ∧
    (newRequest now p ts).name = p.name ∧
    (newRequest now p ts).cls = p.cls ∧
    (newRequest now p ts).amount = p.amount ∧
    (∀ l : List (Nat × Payload × String),
      enqueueAll l = l.map fun x => newRequest x.1 x.2.1 x.2.2) ∧
    (now ∉ q.map Item.id → (q.map Item.id).Nodup →
      ((addToQueue q now p ts).map Item.id).Nodup) := by
  refine ⟨List.take_left q [newRequest now p ts], List.drop_left q [newRequest now p ts],
    rfl, rfl, rfl, rfl, rfl, rfl, rfl, enqueueAll_eq_map, ?_⟩
  intro hfresh hnd
  have hrw : (addToQueue q now p ts).map Item.id = q.map Item.id ++ [now] := by
    simp [addToQueue, newRequest]
  rw [hrw]
  simp [List.nodup_append, hnd, hfresh]

/-- C6 counterexample: with a second enqueue in the same millisecond 5, the
id given to the newly appended item already occurs in the queue — it is not
fresh, and the queue's ids stop being pairwise distinct. -/
theorem enqueue_id_not_fresh :
    (newRequest 5 plA "t2").id ∈ (addToQueue [] 5 plA "t1").map Item.id ∧
    ¬ ((addToQueue (addToQueue [] 5 plA "t1") 5 plA "t2").map Item.id).Nodup :=
  ⟨by decide, by decide⟩

/-- C6 witness: the amended theorem applied to a concrete enqueue at
millisecond 6 onto a queue holding the millisecond-5 item. -/
theorem enqueue_appends_witness :
    (addToQueue [newRequest 5 plA "t1"] 6 plA "t2").take 1 = [newRequest 5 plA "t1"] ∧
    ((addToQueue [newRequest 5 plA "t1"] 6 plA "t2").map Item.id).Nodup := by
  obtain ⟨h1, h2, h3, h4, h5, h6, h7, h8, h9, h10, h11⟩ :=
    enqueue_appends [newRequest 5 plA "t1"] 6 plA "t2"
  exact ⟨h1, h11 (by decide) (by decide)⟩

/-!  Claim C7: what `processRequest` serializes into the POST body. -/

theorem find_by_key {q : List Item} (hnd : (q.map Item.id).Nodup) {a : Item}
    (ha : a ∈ q) : q.find? (fun r => decide (r.id = a.id)) = some a := by
  induction q with
  | nil => cases ha
  | cons x t ih =>
      rw [List.map_cons, List.nodup_cons] at hnd
      by_cases hx : x.id = a.id
      · have hax : a = x := by
          rcases List.mem_cons.mp ha with rfl | hat
          · rfl
          · exact absurd (hx ▸ List.mem_map_of_mem Item.id hat) hnd.1
        rw [hax]
        exact List.find?_cons_of_pos t (by simp [hx])
      · have hat : a ∈ t := by
          rcases List.mem_cons.mp ha with rfl | hat
          · exact absurd rfl hx
          · exact hat
        rw [List.find?_cons_of_neg t (by simp [hx])]
        exact ih hnd.2 hat

/-- C7 (amended): provided all queued items carry pairwise-distinct ids —
no two enqueues reading the same `Date.now()` millisecond — the body
`processRequest` serializes is the chosen item looked up in the queue
snapshot captured by the closure at dispatch-trigger time: the item with
the field values it had at enqueue, still carrying status "pending", not
the post-transition "loading" copy.  (With a collision, the id-keyed
lookup can return an earlier same-id item instead of the chosen one.) -/
theorem dispatch_body_snapshot (s : AppState) (_hR : Reach s)
    (hnd : (queueIds s).Nodup) (item : Item)
    (_hguard : s.isProcessing = false)
    (hfind : s.requestQueue.find? isPending = some item) :
    dispatchBody s item.id = some item ∧ item.status = Status.pending := by
  have hitem : item ∈ s.requestQueue := List.mem_of_find?_eq_some hfind
  refine ⟨find_by_key hnd hitem, ?_⟩
  have := List.find?_some hfind
  simpa [isPending] using this

/-- C7 counterexample: at the dispatch of the one-item run, the serialized
body still has status "pending": it is not the item as it stands after the
"loading" transition — looking the id up after `startStep` yields a
different, "loading", item. -/
theorem dispatch_body_not_loading :
    Reach st1 ∧ st1.isProcessing = false ∧
    st1.requestQueue.find? isPending = some (newRequest 5 plA "t1") ∧
    (dispatchBody st1 5).map Item.status = some Status.pending ∧
    (((startStep st1 5).requestQueue.find? fun req => decide (req.id = 5)).map Item.status
      = some Status.loading) ∧
    dispatchBody st1 5
      ≠ (startStep st1 5).requestQueue.find? fun req => decide (req.id = 5) :=
  ⟨reach_st1, rfl, by decide, by decide, by decide, by decide⟩

/-- C7 witness: the amended theorem applied to the one-item run. -/
theorem dispatch_body_snapshot_witness :
    Reach st1 ∧ (queueIds st1).Nodup ∧
    dispatchBody st1 5 = some (newRequest 5 plA "t1") ∧
    (newRequest 5 plA "t1").status = Status.pending :=
  ⟨reach_st1, by decide,
   (dispatch_body_snapshot st1 reach_st1 (by decide) (newRequest 5 plA "t1") rfl
     (by decide)).1,
   (dispatch_body_snapshot st1 reach_st1 (by decide) (newRequest 5 plA "t1") rfl
     (by decide)).2⟩

/-!  Claim C8: roster lookup. -/

/-- C8: `handleSearch`'s lookup is an exact, whitespace-trimmed,
string-equality match of the query against each record's stringified
admission number: a hit is a roster member whose stringified `admissionNo`
equals the trimmed query, a miss (`none`, the alert branch — no throw) means
no roster record matches, a matching record guarantees a hit, and repeated
lookups of the same key return equal results (the lookup is a pure read of
the roster). -/
theorem roster_lookup_exact (students : List StudentRecord) (query : String) :
    (∀ r, handleSearchFind students query = some r →
      r ∈ students ∧ r.admissionNo.toStr = query.trim) ∧
    (handleSearchFind students query = none ↔
      ∀ r ∈ students, r.admissionNo.toStr ≠ query.trim) ∧
    ((∃ r ∈ students, r.admissionNo.toStr = query.trim) →
      ∃ r, handleSearchFind students query = some r ∧
        r.admissionNo.toStr = query.trim) ∧
    handleSearchFind students query = handleSearchFind students query := by
  refine ⟨?_, ?_, ?_, rfl⟩
  · intro r hr
    refine ⟨List.mem_of_find?_eq_some hr, ?_⟩
    have := List.find?_some hr
    simpa using this
  · simp [handleSearchFind, List.find?_eq_none]
  · rintro ⟨r, hr, hmatch⟩
    cases hfind : handleSearchFind students query with
    | some r0 =>
        refine ⟨r0, rfl, ?_⟩
        have := List.find?_some hfind
        simpa using this
    | none =>
        exfalso
        simp only [handleSearchFind, List.find?_eq_none] at hfind
        exact absurd hmatch (by simpa using hfind r hr)

/-- The Scenario A roster: one record with numeric admission number 101. -/
def rosterA : List StudentRecord :=
  [{ admissionNo := AdmVal.num 101, name := "Asha", cls := "5B", team := none }]

/-- C8 witness: the theorem applied to the Scenario A roster with queries
"101" (a hit exists) and "999" (a miss). -/
theorem roster_lookup_exact_witness :
    ((∃ r ∈ rosterA, r.admissionNo.toStr = "101".trim) →
      ∃ r, handleSearchFind rosterA "101" = some r ∧
        r.admissionNo.toStr = "101".trim) ∧
    (handleSearchFind rosterA "999" = none ↔
      ∀ r ∈ rosterA, r.admissionNo.toStr ≠ "999".trim) :=
  ⟨(roster_lookup_exact rosterA "101").2.2.1, (roster_lookup_exact rosterA "999").2.1⟩

/-!  Claims C9 and C10: the spreadsheet-to-roster converter. -/

/-- C9: when some row is the first one carrying the literal labels "Ad.No.",
"Name", "Class" at columns 0, 1, 3, the converter discards that row and
everything before it, keeps exactly the later rows with at least 4 columns
and a non-empty, non-null column 0, and maps each kept row to the trimmed
stringifications of its columns 0, 1, 3 — so the output length is the count
of qualifying data rows after the header. -/
theorem converter_header (sheet : List (List JsVal)) (i : Nat) (hi : i < sheet.length)
    (hdr : isHeaderRow (sheet.get ⟨i, hi⟩) = true)
    (hfirst : ∀ k (hk : k < i), isHeaderRow (sheet.get ⟨k, Nat.lt_trans hk hi⟩) = false) :
    convert sheet = ((sheet.drop (i + 1)).filter keepRow).map extractRow ∧
    (convert sheet).length = (sheet.drop (i + 1)).countP keepRow := by
  have hfind : sheet.findIdx? isHeaderRow = some i := by
    rw [List.findIdx?_eq_some_iff_getElem]
    refine ⟨hi, ?_, ?_⟩
    · simpa using hdr
    · intro j hji
      simpa using hfirst j hji
  have htn : ((i : Int) + 1).toNat = i + 1 := by omega
  have hconv : convert sheet = ((sheet.drop (i + 1)).filter keepRow).map extractRow := by
    simp only [convert, hfind, htn]
  refine ⟨hconv, ?_⟩
  rw [hconv, List.length_map, List.countP_eq_length_filter]

/-- C10: when no row carries the header labels at columns 0, 1, 3,
`findIndex` returns -1 and `slice(-1 + 1)` keeps the whole sheet: the
converter does not fail and drops no leading rows — every row (including
the first) with at least 4 columns and a non-empty, non-null column 0 is
emitted. -/
theorem converter_no_header (sheet : List (List JsVal))
    (h : ∀ row ∈ sheet, isHeaderRow row = false) :
    convert sheet = (sheet.filter keepRow).map extractRow ∧
    (convert sheet).length = sheet.countP keepRow := by
  have hfind : sheet.findIdx? isHeaderRow = none := by
    rw [List.findIdx?_eq_none_iff]
    intro x hx
    simpa using h x hx
  have hconv : convert sheet = (sheet.filter keepRow).map extractRow := by
    simp only [convert, hfind]
    norm_num
  refine ⟨hconv, ?_⟩
  rw [hconv, List.length_map, List.countP_eq_length_filter]

/-- A concrete sheet: one stray row, the header row, then four candidate
data rows of which exactly two qualify (non-empty column 0, ≥ 4 columns). -/
def sheetA : List (List JsVal) :=
  [[JsVal.str "irrelevant"],
   [JsVal.str "Ad.No.", JsVal.str "Name", JsVal.null, JsVal.str "Class"],
   [JsVal.num 101, JsVal.str "Asha", JsVal.null, JsVal.str "5B"],
   [JsVal.null],
   [JsVal.str "", JsVal.str "x", JsVal.null, JsVal.str "y"],
   [JsVal.num 102, JsVal.str "Biju", JsVal.null, JsVal.str "6A"]]

/-- C9 witness: the theorem applied to `sheetA` (header at index 1); the
output length equals the count of qualifying data rows, which is 2. -/
theorem converter_header_witness :
    (convert sheetA).length = (sheetA.drop 2).countP keepRow ∧
    (sheetA.drop 2).countP keepRow = 2 :=
  ⟨(converter_header sheetA 1 (by decide) (by decide) (by decide)).2, by decide⟩

/-- A concrete sheet with no header row anywhere: data rows from the very
first line, of which two qualify. -/
def sheetB : List (List JsVal) :=
  [[JsVal.num 101, JsVal.str "Asha", JsVal.null, JsVal.str "5B"],
   [JsVal.str ""],
   [JsVal.num 102, JsVal.str "Biju", JsVal.null, JsVal.str "6A"]]

/-- C10 witness: the theorem applied to `sheetB`; no leading row is
discarded and both qualifying rows (the first included) are counted. -/
theorem converter_no_header_witness :
    (convert sheetB).length = sheetB.countP keepRow ∧ sheetB.countP keepRow = 2 :=
  ⟨(converter_no_header sheetB (by decide)).2, by decide⟩
